import Mathlib

/-!
Verification of the in-memory filesystem of the chicon repository (src/mem.rs).

The Rust code stores a tree of entries behind `Rc<RefCell<...>>` cells.  We embed it
shallowly: directory internals are inlined into the entry tree, while file internals
(`MemFileInternal`, the only cells whose aliasing is observable through the public API,
because `create_file`/`open_file` hand out `MemFile` handles) live in an explicit heap
addressed by numeric ids.  Every operation is a pure state transformer returning the
updated state on success.  The only mutation the Rust code performs before returning an
error is normalising a directory's `children` from `None` to `Some(empty)`
(`MemDirectory::insert_file` / `insert_dir`); that change is observationally invisible
(resolution, `read_dir`, `remove` and `rename` treat `None` and `Some(empty)` alike),
so discarding the state on error is faithful to every observable behaviour.

Paths are modelled as their list of segments, which is what `PathBuf::iter` yields for
the slash-separated inputs the facade receives.
-/

set_option autoImplicit false

namespace Chicon

/-- The variants of `crate::error::ChiconError` that the in-memory backend constructs
in src/mem.rs (`BadPath`, `MemFileNotFound`, `MemDirNotFound`, `MemDirNotEmpty`),
each carrying the `PathBuf` payload the code attaches. -/
inductive ChiconError where
  | BadPath : ChiconError
  | MemFileNotFound : List String → ChiconError
  | MemDirNotFound : List String → ChiconError
  | MemDirNotEmpty : List String → ChiconError
deriving DecidableEq, Repr

/-- Possible file type when you fetch directory entries (`crate::FileType`). -/
inductive FileType where
  | Directory : FileType
  | File : FileType
  | Symlink : FileType
deriving DecidableEq, Repr

/-- Fields of `MemFileInternal` (src/mem.rs:303): the shared cell behind every
`MemFile` handle. `perm` is the `Permissions` mode bits (0o755 at creation). -/
structure MemFileInternal where
  completePath : List String
  name : String
  content : List Nat
  perm : Nat
deriving DecidableEq, Repr

/-- An entry of the tree (`MemDirEntry`, src/mem.rs:382).  A file entry is the id of
its `MemFileInternal` cell in the heap; a directory entry inlines
`MemDirectoryInternal` (src/mem.rs:456): complete path, name, mode bits and the
optional children mapping. -/
inductive MemDirEntry where
  | File : Nat → MemDirEntry
  | Directory : List String → String → Nat → Option (List (String × MemDirEntry)) → MemDirEntry

/-- Lookup in a `HashMap<String, MemDirEntry>` modelled as an association list. -/
def lookupKey : List (String × MemDirEntry) → String → Option MemDirEntry
  | [], _ => none
  | (k, v) :: rest, key => if k = key then some v else lookupKey rest key

/-- Insert (or replace) a binding in the children mapping. -/
def insertKey : List (String × MemDirEntry) → String → MemDirEntry → List (String × MemDirEntry)
  | [], key, v => [(key, v)]
  | (k, w) :: rest, key, v =>
      if k = key then (key, v) :: rest else (k, w) :: insertKey rest key v

/-- Remove a binding from the children mapping. -/
def removeKey : List (String × MemDirEntry) → String → List (String × MemDirEntry)
  | [], _ => []
  | (k, w) :: rest, key => if k = key then rest else (k, w) :: removeKey rest key

/-- Lookup of a file cell in the heap of `Rc<RefCell<MemFileInternal>>` cells. -/
def heapGet : List (Nat × MemFileInternal) → Nat → Option MemFileInternal
  | [], _ => none
  | (k, v) :: rest, fid => if k = fid then some v else heapGet rest fid

/-- Update the file cell with id `fid` in place. -/
def heapModify : List (Nat × MemFileInternal) → Nat →
    (MemFileInternal → MemFileInternal) → List (Nat × MemFileInternal)
  | [], _, _ => []
  | (k, v) :: rest, fid, f =>
      (if k = fid then (k, f v) else (k, v)) :: heapModify rest fid f

/-- The allocator state for file cells: the heap plus the next fresh id
(modelling `Rc::new(RefCell::new(...))` allocations). -/
structure FileStore where
  heap : List (Nat × MemFileInternal)
  nextId : Nat
deriving Repr

/-- The filesystem state: `MemFileSystem` (src/mem.rs:14) is its root children
mapping; the store carries the file cells the tree's file entries point at. -/
structure MemFileSystem where
  children : List (String × MemDirEntry)
  store : FileStore

/-- MemFileSystem::new (src/mem.rs:89). -/
def MemFileSystem.empty : MemFileSystem := ⟨[], ⟨[], 0⟩⟩

/-- DirEntry::file_type for MemDirEntry (src/mem.rs:396). -/
def MemDirEntry.fileType : MemDirEntry → FileType
  | .File _ => .File
  | .Directory _ _ _ _ => .Directory

/-- MemDirEntry::get_from_relative_path (src/mem.rs:403) with
`MemDirectory::get_from_relative_path` (src/mem.rs:467) inlined at its single call
site (the directory branch, which always passes a non-empty path).  An exhausted
path returns the entry itself; otherwise a file matches the next segment against
its own name, and a directory first matches the segment against its own name
(returning itself and discarding the remaining segments on a match) before looking
the segment up among its children. -/
def entryGetFromRelativePath (heap : List (Nat × MemFileInternal)) :
    MemDirEntry → List String → Option MemDirEntry
  | e, [] => some e
  | e, current :: rest =>
    match e with
    | .File fid =>
        match heapGet heap fid with
        | some fi => if fi.name = current then some e else none
        | none => none
    | .Directory _cp nm _perm ch =>
        if nm = current then some e
        else
          match ch with
          | none => none
          | some cs =>
            match lookupKey cs current with
            | some child => entryGetFromRelativePath heap child rest
            | none => none

/-- MemFileSystem::get_from_relative_path (src/mem.rs:95): empty root or empty
path resolve to nothing; otherwise the first segment is looked up in the root
mapping and the rest of the walk is delegated to the entry. -/
def MemFileSystem.getFromRelativePath (s : MemFileSystem) (path : List String) :
    Option MemDirEntry :=
  if s.children.isEmpty then none
  else
    match path with
    | [] => none
    | current :: rest =>
      match lookupKey s.children current with
      | some child => entryGetFromRelativePath s.store.heap child rest
      | none => none

/-- MemDirectory::insert_file (src/mem.rs:486), acting on the directory's
`children` field (normalised from `None` to an empty mapping first, as the Rust
code does).  Returns the file handle id, the updated children and the updated
store. -/
def dirInsertFile (st : FileStore) (children0 : Option (List (String × MemDirEntry)))
    (path completePath : List String) :
    Except ChiconError (Nat × Option (List (String × MemDirEntry)) × FileStore) :=
  let cs := children0.getD []
  match path with
  | [] => .error .BadPath
  | current :: rest =>
    match lookupKey cs current with
    | some (.Directory cp nm perm ch) =>
        (dirInsertFile st ch rest completePath).map fun r =>
          (r.1, some (insertKey cs current (.Directory cp nm perm r.2.1)), r.2.2)
    | some (.File fid) => .ok (fid, some cs, st)
    | none =>
        if rest.isEmpty then
          let fid := st.nextId
          .ok (fid, some (insertKey cs current (.File fid)),
               ⟨(fid, ⟨completePath, current, [], 0o755⟩) :: st.heap, st.nextId + 1⟩)
        else .error (.MemDirNotFound [current])

/-- MemFileSystem::insert_file (src/mem.rs:113), acting on the root mapping. -/
def rootInsertFile (st : FileStore) (children : List (String × MemDirEntry))
    (path : List String) :
    Except ChiconError (Nat × List (String × MemDirEntry) × FileStore) :=
  match path with
  | [] => .error .BadPath
  | current :: rest =>
    match lookupKey children current with
    | some (.Directory cp nm perm ch) =>
        (dirInsertFile st ch rest path).map fun r =>
          (r.1, insertKey children current (.Directory cp nm perm r.2.1), r.2.2)
    | some (.File fid) => .ok (fid, children, st)
    | none =>
        if rest.isEmpty then
          let fid := st.nextId
          .ok (fid, insertKey children current (.File fid),
               ⟨(fid, ⟨path, current, [], 0o755⟩) :: st.heap, st.nextId + 1⟩)
        else .error (.MemDirNotFound [current])

/-- MemDirectory::insert_dir (src/mem.rs:532), acting on the directory's
`children` field.  Returns the updated children and the directory entry the call
returns (the found directory, the created leaf, or the leaf created below a
freshly created intermediate when `force` is set). -/
def dirInsertDir (children0 : Option (List (String × MemDirEntry)))
    (path completePath : List String) (force : Bool) :
    Except ChiconError (Option (List (String × MemDirEntry)) × MemDirEntry) :=
  let cs := children0.getD []
  match path with
  | [] => .error .BadPath
  | current :: rest =>
    match lookupKey cs current with
    | some (.Directory cp nm perm ch) =>
        if rest.isEmpty then .ok (some cs, .Directory cp nm perm ch)
        else
          (dirInsertDir ch rest completePath force).map fun r =>
            (some (insertKey cs current (.Directory cp nm perm r.1)), r.2)
    | some (.File _) => .error .BadPath
    | none =>
        if rest.isEmpty then
          let d := MemDirEntry.Directory completePath current 0o755 none
          .ok (some (insertKey cs current d), d)
        else if force then
          (dirInsertDir none rest completePath force).map fun r =>
            (some (insertKey cs current (.Directory completePath current 0o755 r.1)), r.2)
        else .error (.MemDirNotFound [current])

/-- MemFileSystem::insert_dir (src/mem.rs:148), acting on the root mapping. -/
def rootInsertDir (children : List (String × MemDirEntry)) (path : List String)
    (force : Bool) :
    Except ChiconError (List (String × MemDirEntry) × MemDirEntry) :=
  match path with
  | [] => .error .BadPath
  | current :: rest =>
    match lookupKey children current with
    | some (.Directory cp nm perm ch) =>
        if rest.isEmpty then .ok (children, .Directory cp nm perm ch)
        else
          (dirInsertDir ch rest path force).map fun r =>
            (insertKey children current (.Directory cp nm perm r.1), r.2)
    | some (.File _) => .error .BadPath
    | none =>
        if rest.isEmpty then
          let d := MemDirEntry.Directory path current 0o755 none
          .ok (insertKey children current d, d)
        else if force then
          (dirInsertDir none rest path force).map fun r =>
            (insertKey children current (.Directory path current 0o755 r.1), r.2)
        else .error (.MemDirNotFound [current])

/-- MemDirectory::remove (src/mem.rs:600), acting on the directory's `children`
field.  Note two asymmetries with the root-level `MemFileSystem::remove`: the
terminal entry's type is not checked against `entryType` here, and a non-empty
directory removed without `force` produces `MemDirNotFound` carrying the
directory's complete path (not `MemDirNotEmpty`). -/
def dirRemove (children0 : Option (List (String × MemDirEntry))) (path : List String)
    (entryType : FileType) (force : Bool) :
    Except ChiconError (Option (List (String × MemDirEntry))) :=
  match path with
  | [] => .error .BadPath
  | current :: rest =>
    match children0 with
    | none => .error .BadPath
    | some cs =>
      match lookupKey cs current with
      | none => .error .BadPath
      | some child =>
        if rest.isEmpty then
          match child with
          | .Directory cp _nm _perm (some cc) =>
              if (!cc.isEmpty) && (!force) then .error (.MemDirNotFound cp)
              else .ok (some (removeKey cs current))
          | _ => .ok (some (removeKey cs current))
        else
          match child with
          | .File _ => .error .BadPath
          | .Directory cp nm perm ch =>
              (dirRemove ch rest entryType force).map fun ch1 =>
                some (insertKey cs current (.Directory cp nm perm ch1))

/-- MemFileSystem::remove (src/mem.rs:204), acting on the root mapping.  An empty
root mapping produces the NotFound error typed by the requested kind; a terminal
entry at the root is type-checked and, for a non-empty directory without `force`,
rejected with `MemDirNotEmpty` carrying the full requested path. -/
def rootRemove (children : List (String × MemDirEntry)) (path : List String)
    (entryType : FileType) (force : Bool) :
    Except ChiconError (List (String × MemDirEntry)) :=
  if children.isEmpty then
    match entryType with
    | .File => .error (.MemFileNotFound path)
    | .Directory => .error (.MemDirNotFound path)
    | .Symlink => .error .BadPath
  else
    match path with
    | [] => .error .BadPath
    | current :: rest =>
      match lookupKey children current with
      | none => .error .BadPath
      | some child =>
        if rest.isEmpty then
          if child.fileType = entryType then
            match child with
            | .Directory _cp _nm _perm (some cc) =>
                if (!cc.isEmpty) && (!force) then .error (.MemDirNotEmpty path)
                else .ok (removeKey children current)
            | _ => .ok (removeKey children current)
          else .error .BadPath
        else
          match child with
          | .File _ => .error .BadPath
          | .Directory cp nm perm ch =>
              (dirRemove ch rest entryType force).map fun ch1 =>
                insertKey children current (.Directory cp nm perm ch1)

/-- MemDirectory::rename (src/mem.rs:640), acting on the directory's `children`
field.  The walk consumes one segment of the old and of the new path per level;
at the terminal level the entry is detached from its old key, its
`complete_path` is set to `completePath` (the full new path), and it is
re-attached under the new path's segment at this level — any remaining new-path
segments are discarded. -/
def dirRename (st : FileStore) (children0 : Option (List (String × MemDirEntry)))
    (path newPath completePath : List String) :
    Except ChiconError (Option (List (String × MemDirEntry)) × FileStore) :=
  match path with
  | [] => .error .BadPath
  | current :: rest =>
    match newPath with
    | [] => .error .BadPath
    | currentNew :: restNew =>
      match children0 with
      | none => .error .BadPath
      | some cs =>
        match lookupKey cs current with
        | none => .error .BadPath
        | some child =>
          if rest.isEmpty then
            match child with
            | .Directory _cp nm perm ch =>
                .ok (some (insertKey (removeKey cs current) currentNew
                      (.Directory completePath nm perm ch)), st)
            | .File fid =>
                .ok (some (insertKey (removeKey cs current) currentNew (.File fid)),
                     ⟨heapModify st.heap fid (fun fi => { fi with completePath := completePath }),
                      st.nextId⟩)
          else
            match child with
            | .File _ => .error .BadPath
            | .Directory cp nm perm ch =>
                (dirRename st ch rest restNew completePath).map fun r =>
                  (some (insertKey cs current (.Directory cp nm perm r.1)), r.2)

/-- MemFileSystem::rename_internal (src/mem.rs:247), acting on the root mapping. -/
def rootRename (st : FileStore) (children : List (String × MemDirEntry))
    (path newPath : List String) :
    Except ChiconError (List (String × MemDirEntry) × FileStore) :=
  if children.isEmpty then .error .BadPath
  else
    match path with
    | [] => .error .BadPath
    | current :: rest =>
      match newPath with
      | [] => .error .BadPath
      | currentNew :: restNew =>
        match lookupKey children current with
        | none => .error .BadPath
        | some child =>
          if rest.isEmpty then
            match child with
            | .Directory _cp nm perm ch =>
                .ok (insertKey (removeKey children current) currentNew
                      (.Directory newPath nm perm ch), st)
            | .File fid =>
                .ok (insertKey (removeKey children current) currentNew (.File fid),
                     ⟨heapModify st.heap fid (fun fi => { fi with completePath := newPath }),
                      st.nextId⟩)
          else
            match child with
            | .File _ => .error .BadPath
            | .Directory cp nm perm ch =>
                (dirRename st ch rest restNew newPath).map fun r =>
                  (insertKey children current (.Directory cp nm perm r.1), r.2)

/-- FileSystem::create_file for MemFileSystem (src/mem.rs:25). -/
def MemFileSystem.createFile (s : MemFileSystem) (path : List String) :
    Except ChiconError (Nat × MemFileSystem) :=
  (rootInsertFile s.store s.children path).map fun r => (r.1, ⟨r.2.1, r.2.2⟩)

/-- FileSystem::create_dir for MemFileSystem (src/mem.rs:29): `insert_dir` with
`force = false`, discarding the returned directory. -/
def MemFileSystem.createDir (s : MemFileSystem) (path : List String) :
    Except ChiconError MemFileSystem :=
  (rootInsertDir s.children path false).map fun r => ⟨r.1, s.store⟩

/-- FileSystem::create_dir_all for MemFileSystem (src/mem.rs:35): `insert_dir`
with `force = true`, discarding the returned directory. -/
def MemFileSystem.createDirAll (s : MemFileSystem) (path : List String) :
    Except ChiconError MemFileSystem :=
  (rootInsertDir s.children path true).map fun r => ⟨r.1, s.store⟩

/-- FileSystem::open_file for MemFileSystem (src/mem.rs:41): resolves the path;
anything but a file entry (a directory, or no entry at all) is
`MemFileNotFound`. -/
def MemFileSystem.openFile (s : MemFileSystem) (path : List String) :
    Except ChiconError Nat :=
  match s.getFromRelativePath path with
  | some (.File fid) => .ok fid
  | some (.Directory _ _ _ _) => .error (.MemFileNotFound path)
  | none => .error (.MemFileNotFound path)

/-- FileSystem::read_dir for MemFileSystem (src/mem.rs:52): a resolved directory
yields its children values (an empty sequence when the mapping was never
populated); a resolved file or a failed resolution yields `MemFileNotFound`. -/
def MemFileSystem.readDir (s : MemFileSystem) (path : List String) :
    Except ChiconError (List MemDirEntry) :=
  match s.getFromRelativePath path with
  | some (.Directory _ _ _ (some cs)) => .ok (cs.map Prod.snd)
  | some (.Directory _ _ _ none) => .ok []
  | some (.File _) => .error (.MemFileNotFound path)
  | none => .error (.MemFileNotFound path)

/-- FileSystem::remove_file for MemFileSystem (src/mem.rs:69). -/
def MemFileSystem.removeFile (s : MemFileSystem) (path : List String) :
    Except ChiconError MemFileSystem :=
  (rootRemove s.children path .File false).map fun cs => ⟨cs, s.store⟩

/-- FileSystem::remove_dir for MemFileSystem (src/mem.rs:73). -/
def MemFileSystem.removeDir (s : MemFileSystem) (path : List String) :
    Except ChiconError MemFileSystem :=
  (rootRemove s.children path .Directory false).map fun cs => ⟨cs, s.store⟩

/-- FileSystem::remove_dir_all for MemFileSystem (src/mem.rs:77). -/
def MemFileSystem.removeDirAll (s : MemFileSystem) (path : List String) :
    Except ChiconError MemFileSystem :=
  (rootRemove s.children path .Directory true).map fun cs => ⟨cs, s.store⟩

/-- FileSystem::rename for MemFileSystem (src/mem.rs:81). -/
def MemFileSystem.rename (s : MemFileSystem) (from0 to0 : List String) :
    Except ChiconError MemFileSystem :=
  (rootRename s.store s.children from0 to0).map fun r => ⟨r.1, r.2⟩

/-- Write::write for MemFile (src/mem.rs:353): `Vec::write` appends the whole
buffer to the shared content cell and reports the buffer's length. -/
def memFileWrite (st : FileStore) (fid : Nat) (buf : List Nat) : Nat × FileStore :=
  (buf.length,
   ⟨heapModify st.heap fid (fun fi => { fi with content := fi.content ++ buf }), st.nextId⟩)

/-- Read::read for MemFile (src/mem.rs:322): copies up to `bufLen` bytes of the
shared cell's content into the caller's buffer and stores the remaining bytes
back into the cell — the returned bytes are consumed from the shared content.
(The cell is always present in reachable states; a missing cell reads nothing.) -/
def memFileRead (st : FileStore) (fid : Nat) (bufLen : Nat) : List Nat × FileStore :=
  match heapGet st.heap fid with
  | none => ([], st)
  | some fi =>
      (fi.content.take bufLen,
       ⟨heapModify st.heap fid (fun f => { f with content := f.content.drop bufLen }), st.nextId⟩)

/-- Read::read_to_end / read_to_string through MemFile::read: repeated reads
drain the shared cell, so the bytes obtained are exactly its current content and
the cell is left empty. -/
def memFileReadToEnd (st : FileStore) (fid : Nat) : List Nat × FileStore :=
  match heapGet st.heap fid with
  | none => ([], st)
  | some fi =>
      (fi.content,
       ⟨heapModify st.heap fid (fun f => { f with content := [] }), st.nextId⟩)

/-- File::sync_all for MemFile (src/mem.rs:317) is a no-op. -/
def memFileSyncAll (st : FileStore) : FileStore := st

/-- The key-directed parent-chain walk shared by the mutators (`insert`/`remove`/
`rename` descend by children-map lookups only, never comparing an entry's own
name): follows each segment through a directory's children and returns the entry
at the final segment.  This is a specification-side helper used to state where a
mutator's walk lands. -/
def keyResolve : Option (List (String × MemDirEntry)) → List String → Option MemDirEntry
  | _, [] => none
  | none, _ :: _ => none
  | some cs, current :: rest =>
    match lookupKey cs current with
    | none => none
    | some child =>
      if rest.isEmpty then some child
      else
        match child with
        | .Directory _ _ _ ch => keyResolve ch rest
        | .File _ => none

/-! ### Association-list and heap lemmas -/

theorem lookupKey_insertKey_self (cs : List (String × MemDirEntry)) (k : String)
    (v : MemDirEntry) : lookupKey (insertKey cs k v) k = some v := by
  induction cs with
  | nil => simp [insertKey, lookupKey]
  | cons hd tl ih =>
    obtain ⟨a, b⟩ := hd
    by_cases hak : a = k
    · simp [insertKey, hak, lookupKey]
    · simp [insertKey, hak, lookupKey, ih]

theorem insertKey_self_of_lookup (cs : List (String × MemDirEntry)) (k : String)
    (v : MemDirEntry) (h : lookupKey cs k = some v) : insertKey cs k v = cs := by
  induction cs with
  | nil => simp [lookupKey] at h
  | cons hd tl ih =>
    obtain ⟨a, b⟩ := hd
    by_cases hak : a = k
    · simp [lookupKey, hak] at h
      simp [insertKey, hak, h]
    · simp [lookupKey, hak] at h
      simp [insertKey, hak, ih h]

theorem insertKey_isEmpty_false (cs : List (String × MemDirEntry)) (k : String)
    (v : MemDirEntry) : (insertKey cs k v).isEmpty = false := by
  cases cs with
  | nil => rfl
  | cons hd tl =>
    obtain ⟨a, b⟩ := hd
    by_cases hak : a = k <;> simp [insertKey, hak]

theorem heapGet_heapModify (h : List (Nat × MemFileInternal)) (fid : Nat)
    (f : MemFileInternal → MemFileInternal) :
    heapGet (heapModify h fid f) fid = (heapGet h fid).map f := by
  induction h with
  | nil => rfl
  | cons hd tl ih =>
    obtain ⟨a, b⟩ := hd
    by_cases hak : a = fid
    · subst hak
      rw [heapModify, if_pos rfl, heapGet, if_pos rfl, heapGet, if_pos rfl]
      rfl
    · rw [heapModify, if_neg hak, heapGet, if_neg hak, ih, heapGet, if_neg hak]

theorem heapModify_heapModify (h : List (Nat × MemFileInternal)) (fid : Nat)
    (f g : MemFileInternal → MemFileInternal) :
    heapModify (heapModify h fid f) fid g = heapModify h fid (fun x => g (f x)) := by
  induction h with
  | nil => rfl
  | cons hd tl ih =>
    obtain ⟨a, b⟩ := hd
    by_cases hak : a = fid
    · subst hak
      rw [heapModify, if_pos rfl, heapModify, if_pos rfl, ih, heapModify, if_pos rfl]
    · rw [heapModify, if_neg hak, heapModify, if_neg hak, ih, heapModify, if_neg hak]

/-- Sanity link: on a store holding the addressed cell, a read to completion is
exactly one `MemFile::read` whose buffer covers the whole current content (each
further read then returns zero bytes, since the cell has been drained). -/
theorem memFileReadToEnd_eq_full_read (fid : Nat) (fi : MemFileInternal) (nid : Nat) :
    memFileReadToEnd ⟨[(fid, fi)], nid⟩ fid =
      memFileRead ⟨[(fid, fi)], nid⟩ fid fi.content.length := by
  have hg : heapGet [(fid, fi)] fid = some fi := by rw [heapGet, if_pos rfl]
  simp only [memFileReadToEnd, memFileRead, hg]
  rw [heapModify, if_pos rfl, heapModify, heapModify, if_pos rfl, heapModify]
  simp [List.take_length, List.drop_length]

/-! ### C3 — create_file through an intermediate file entry -/

/-- C3: the claim states that `create_file(path)` fails with a type-mismatch
condition whenever a non-terminal segment resolves to an existing file, and that
it never returns a handle for such a path.  The code does the opposite: the
`MemDirEntry::File` arm of `MemFileSystem::insert_file` (src/mem.rs:124, likewise
src/mem.rs:504) returns `Ok(file.clone())` without checking whether path segments
remain.  Evaluated at the failing input: with a file at `a`, `create_file("a/b")`
succeeds and hands back the handle of the file `a` itself, leaving the state
unchanged. -/
theorem createFile_through_file_returns_existing_handle :
    MemFileSystem.createFile MemFileSystem.empty ["a"] =
      .ok (0, ⟨[(("a"), .File 0)], ⟨[(0, ⟨["a"], ("a"), [], 0o755⟩)], 1⟩⟩) ∧
    MemFileSystem.createFile ⟨[(("a"), .File 0)], ⟨[(0, ⟨["a"], ("a"), [], 0o755⟩)], 1⟩⟩
        ["a", "b"] =
      .ok (0, ⟨[(("a"), .File 0)], ⟨[(0, ⟨["a"], ("a"), [], 0o755⟩)], 1⟩⟩) :=
  ⟨rfl, rfl⟩

/-! ### C4 — remove_dir on a non-empty directory below the top level -/

/-- C4: the claim states that `remove_dir(P)` fails with the DirectoryNotEmpty
error kind iff `read_dir(P)` is non-empty, at every depth.  At the root level
`MemFileSystem::remove` indeed uses `MemDirNotEmpty` (src/mem.rs:228), but at
every deeper level `MemDirectory::remove` returns `MemDirNotFound` carrying the
existing directory's complete path instead (src/mem.rs:624).  Evaluated at the
failing input: with a file at `a/b/c`, `read_dir("a/b")` is non-empty yet
`remove_dir("a/b")` fails with `MemDirNotFound("a/b")`, a different error kind
than `MemDirNotEmpty`. -/
theorem removeDir_nested_nonEmpty_returns_memDirNotFound :
    MemFileSystem.createDirAll MemFileSystem.empty ["a", "b"] =
      .ok ⟨[(("a"), .Directory ["a", "b"] ("a") 0o755
              (some [(("b"), .Directory ["a", "b"] ("b") 0o755 none)]))], ⟨[], 0⟩⟩ ∧
    MemFileSystem.createFile
        ⟨[(("a"), .Directory ["a", "b"] ("a") 0o755
            (some [(("b"), .Directory ["a", "b"] ("b") 0o755 none)]))], ⟨[], 0⟩⟩
        ["a", "b", "c"] =
      .ok (0, ⟨[(("a"), .Directory ["a", "b"] ("a") 0o755
              (some [(("b"), .Directory ["a", "b"] ("b") 0o755
                (some [(("c"), .File 0)]))]))],
            ⟨[(0, ⟨["a", "b", "c"], ("c"), [], 0o755⟩)], 1⟩⟩) ∧
    MemFileSystem.readDir
        ⟨[(("a"), .Directory ["a", "b"] ("a") 0o755
            (some [(("b"), .Directory ["a", "b"] ("b") 0o755
              (some [(("c"), .File 0)]))]))],
          ⟨[(0, ⟨["a", "b", "c"], ("c"), [], 0o755⟩)], 1⟩⟩
        ["a", "b"] = .ok [.File 0] ∧
    MemFileSystem.removeDir
        ⟨[(("a"), .Directory ["a", "b"] ("a") 0o755
            (some [(("b"), .Directory ["a", "b"] ("b") 0o755
              (some [(("c"), .File 0)]))]))],
          ⟨[(0, ⟨["a", "b", "c"], ("c"), [], 0o755⟩)], 1⟩⟩
        ["a", "b"] = .error (.MemDirNotFound ["a", "b"]) ∧
    (ChiconError.MemDirNotFound ["a", "b"]) ≠ .MemDirNotEmpty ["a", "b"] :=
  ⟨rfl, rfl, rfl, rfl, by decide⟩

/-! ### C1 — handle read cursors -/

/-- C1 counterexample: the claim states that each handle on the same path reads
the shared content from a private cursor, so a full read through one handle never
modifies the shared content cell and a second handle still reads the full
content.  In the code `MemFile` has no cursor field and `MemFile::read` stores
the unread remainder back into the shared cell.  Concretely: `create_file("f")`
yields handle 0, `open_file("f")` yields the same cell 0, writing `[1]` and
reading to completion through the first handle returns `[1]` but leaves the
shared cell's content empty, and the second handle's read to completion then
yields `[]`, not the full content `[1]`. -/
theorem read_through_aliased_handles_counterexample :
    MemFileSystem.createFile MemFileSystem.empty ["f"] =
      .ok (0, ⟨[(("f"), .File 0)], ⟨[(0, ⟨["f"], ("f"), [], 0o755⟩)], 1⟩⟩) ∧
    MemFileSystem.openFile ⟨[(("f"), .File 0)], ⟨[(0, ⟨["f"], ("f"), [], 0o755⟩)], 1⟩⟩
        ["f"] = .ok 0 ∧
    memFileWrite ⟨[(0, ⟨["f"], ("f"), [], 0o755⟩)], 1⟩ 0 [1] =
      (1, ⟨[(0, ⟨["f"], ("f"), [1], 0o755⟩)], 1⟩) ∧
    memFileReadToEnd ⟨[(0, ⟨["f"], ("f"), [1], 0o755⟩)], 1⟩ 0 =
      ([1], ⟨[(0, ⟨["f"], ("f"), [], 0o755⟩)], 1⟩) ∧
    memFileReadToEnd ⟨[(0, ⟨["f"], ("f"), [], 0o755⟩)], 1⟩ 0 =
      ([], ⟨[(0, ⟨["f"], ("f"), [], 0o755⟩)], 1⟩) ∧
    ([] : List Nat) ≠ [1] :=
  ⟨rfl, rfl, rfl, rfl, rfl, by decide⟩

/-- C1 amended: every handle on a path aliases the file's one shared content
cell and carries no private cursor; `MemFile::read` consumes the bytes it
returns from that cell, so a read to completion returns the cell's current
content, leaves the cell empty, and any subsequent read to completion through
any handle of the same cell yields the empty sequence. -/
theorem readToEnd_consumes_shared_cell (st : FileStore) (fid : Nat)
    (fi : MemFileInternal) (h : heapGet st.heap fid = some fi) :
    (memFileReadToEnd st fid).1 = fi.content ∧
    heapGet (memFileReadToEnd st fid).2.heap fid = some { fi with content := [] } ∧
    memFileReadToEnd (memFileReadToEnd st fid).2 fid = ([], (memFileReadToEnd st fid).2) := by
  refine ⟨by simp [memFileReadToEnd, h], ?_, ?_⟩
  · simp [memFileReadToEnd, h, heapGet_heapModify]
  · simp [memFileReadToEnd, h, heapGet_heapModify, heapModify_heapModify]

/-- C1 witness: the amended theorem evaluated on a one-file store holding
content `[1]`. -/
theorem readToEnd_consumes_shared_cell_witness :
    (memFileReadToEnd ⟨[(0, ⟨["f"], ("f"), [1], 0o755⟩)], 1⟩ 0).1 = [1] ∧
    heapGet (memFileReadToEnd ⟨[(0, ⟨["f"], ("f"), [1], 0o755⟩)], 1⟩ 0).2.heap 0 =
      some ⟨["f"], ("f"), [], 0o755⟩ ∧
    memFileReadToEnd (memFileReadToEnd ⟨[(0, ⟨["f"], ("f"), [1], 0o755⟩)], 1⟩ 0).2 0 =
      ([], (memFileReadToEnd ⟨[(0, ⟨["f"], ("f"), [1], 0o755⟩)], 1⟩ 0).2) :=
  readToEnd_consumes_shared_cell ⟨[(0, ⟨["f"], ("f"), [1], 0o755⟩)], 1⟩ 0
    ⟨["f"], ("f"), [1], 0o755⟩ rfl

/-! ### C6 — create_file / write / sync_all / open_file round trip -/

/-- C6 counterexample: the claim quantifies over every byte sequence B and path P
with no constraint on the prior state.  When a file already exists at P,
`create_file` returns the existing handle with its existing content ("touch"
semantics), so the final read yields the prior content followed by B.
Concretely: after `create_file("f")` and writing `[1]`, a second
`create_file("f")` returns the same handle, writing `B = [2]` and reading back
via `open_file("f")` yields `[1, 2]`, not `[2]`. -/
theorem createFile_roundtrip_counterexample :
    MemFileSystem.createFile MemFileSystem.empty ["f"] =
      .ok (0, ⟨[(("f"), .File 0)], ⟨[(0, ⟨["f"], ("f"), [], 0o755⟩)], 1⟩⟩) ∧
    memFileWrite ⟨[(0, ⟨["f"], ("f"), [], 0o755⟩)], 1⟩ 0 [1] =
      (1, ⟨[(0, ⟨["f"], ("f"), [1], 0o755⟩)], 1⟩) ∧
    MemFileSystem.createFile ⟨[(("f"), .File 0)], ⟨[(0, ⟨["f"], ("f"), [1], 0o755⟩)], 1⟩⟩
        ["f"] =
      .ok (0, ⟨[(("f"), .File 0)], ⟨[(0, ⟨["f"], ("f"), [1], 0o755⟩)], 1⟩⟩) ∧
    memFileWrite ⟨[(0, ⟨["f"], ("f"), [1], 0o755⟩)], 1⟩ 0 [2] =
      (1, ⟨[(0, ⟨["f"], ("f"), [1, 2], 0o755⟩)], 1⟩) ∧
    memFileSyncAll ⟨[(0, ⟨["f"], ("f"), [1, 2], 0o755⟩)], 1⟩ =
      ⟨[(0, ⟨["f"], ("f"), [1, 2], 0o755⟩)], 1⟩ ∧
    MemFileSystem.openFile ⟨[(("f"), .File 0)], ⟨[(0, ⟨["f"], ("f"), [1, 2], 0o755⟩)], 1⟩⟩
        ["f"] = .ok 0 ∧
    (memFileReadToEnd ⟨[(0, ⟨["f"], ("f"), [1, 2], 0o755⟩)], 1⟩ 0).1 = [1, 2] ∧
    ([1, 2] : List Nat) ≠ [2] :=
  ⟨rfl, rfl, rfl, rfl, rfl, rfl, rfl, by decide⟩

/-- C6 amended: the round trip yields exactly B provided the file at P is
freshly created.  For a single-segment path P = [n] not yet bound at the root,
`create_file(P)` creates an empty file, writing B through the returned handle,
calling `sync_all`, then `open_file(P)` returns the same cell and reading it to
completion yields exactly B.  (When P already holds a file the read instead
yields the prior content followed by B, as the counterexample shows.) -/
theorem createFile_write_open_read_roundtrip (s : MemFileSystem) (n : String)
    (B : List Nat) (fid : Nat) (s₁ : MemFileSystem)
    (hfresh : lookupKey s.children n = none)
    (hcreate : s.createFile [n] = .ok (fid, s₁)) :
    MemFileSystem.openFile
        ⟨s₁.children, memFileSyncAll (memFileWrite s₁.store fid B).2⟩ [n] = .ok fid ∧
    (memFileReadToEnd (memFileSyncAll (memFileWrite s₁.store fid B).2) fid).1 = B := by
  have hc : s.createFile [n] =
      .ok (s.store.nextId, ⟨insertKey s.children n (.File s.store.nextId),
        ⟨(s.store.nextId, ⟨[n], n, [], 0o755⟩) :: s.store.heap, s.store.nextId + 1⟩⟩) := by
    simp [MemFileSystem.createFile, rootInsertFile, hfresh, Except.map]
  rw [hc] at hcreate
  obtain ⟨hfid, hs⟩ : fid = s.store.nextId ∧ s₁ = ⟨insertKey s.children n (.File s.store.nextId),
      ⟨(s.store.nextId, ⟨[n], n, [], 0o755⟩) :: s.store.heap, s.store.nextId + 1⟩⟩ := by
    have := hcreate
    simp only [Except.ok.injEq, Prod.mk.injEq] at this
    exact ⟨this.1.symm, this.2.symm⟩
  subst hfid
  subst hs
  constructor
  · simp [MemFileSystem.openFile, MemFileSystem.getFromRelativePath, memFileSyncAll,
      insertKey_isEmpty_false, lookupKey_insertKey_self, entryGetFromRelativePath]
  · have hget : heapGet ((s.store.nextId, (⟨[n], n, [], 0o755⟩ : MemFileInternal))
        :: s.store.heap) s.store.nextId = some ⟨[n], n, [], 0o755⟩ := by
      rw [heapGet, if_pos rfl]
    simp [memFileSyncAll, memFileWrite, memFileReadToEnd, heapGet_heapModify, hget]

/-- C6 witness: the amended round trip on the empty filesystem with
P = "f" and B = [1, 2]. -/
theorem createFile_write_open_read_roundtrip_witness :
    MemFileSystem.openFile
      ⟨[(("f"), MemDirEntry.File 0)],
        memFileSyncAll (memFileWrite ⟨[(0, ⟨["f"], ("f"), [], 0o755⟩)], 1⟩ 0 [1, 2]).2⟩
      ["f"] = .ok 0 ∧
    (memFileReadToEnd
        (memFileSyncAll (memFileWrite ⟨[(0, ⟨["f"], ("f"), [], 0o755⟩)], 1⟩ 0 [1, 2]).2)
        0).1 = [1, 2] :=
  createFile_write_open_read_roundtrip MemFileSystem.empty ("f") [1, 2] 0
    ⟨[(("f"), MemDirEntry.File 0)], ⟨[(0, ⟨["f"], ("f"), [], 0o755⟩)], 1⟩⟩ rfl rfl

/-! ### C5 — removal of an absent terminal entry -/

/-- C5 counterexample: the claim states that removing an absent terminal entry
fails with a NotFound error typed by the requested kind regardless of whether
the tree is populated.  With a populated root (a file at `x`),
`remove_file("y")` fails with the untyped `BadPath` (src/mem.rs:241), not with
`MemFileNotFound`. -/
theorem removeFile_absent_in_populated_tree_counterexample :
    MemFileSystem.createFile MemFileSystem.empty ["x"] =
      .ok (0, ⟨[(("x"), .File 0)], ⟨[(0, ⟨["x"], ("x"), [], 0o755⟩)], 1⟩⟩) ∧
    MemFileSystem.removeFile ⟨[(("x"), .File 0)], ⟨[(0, ⟨["x"], ("x"), [], 0o755⟩)], 1⟩⟩
        ["y"] = .error .BadPath ∧
    ChiconError.BadPath ≠ .MemFileNotFound ["y"] ∧
    ChiconError.BadPath ≠ .MemDirNotFound ["y"] :=
  ⟨rfl, rfl, by decide, by decide⟩

/-- Helper for C5: below the root, `MemDirectory::remove` answers `BadPath`
whenever the key-directed walk to the terminal entry fails (absent key, file in
the middle of the path, or unpopulated children). -/
theorem dirRemove_badPath_of_keyResolve_none (p : List String) :
    ∀ (ch : Option (List (String × MemDirEntry))) (t : FileType) (f : Bool),
    p ≠ [] → keyResolve ch p = none → dirRemove ch p t f = .error .BadPath := by
  induction p with
  | nil => intro ch t f hp; exact absurd rfl hp
  | cons current rest ih =>
    intro ch t f _hp hk
    cases ch with
    | none => rfl
    | some cs =>
      rw [keyResolve] at hk
      rw [dirRemove]
      cases hl : lookupKey cs current with
      | none => rfl
      | some child =>
        rw [hl] at hk
        cases hrest : rest.isEmpty with
        | true => rw [hrest] at hk; simp at hk
        | false =>
          rw [hrest] at hk
          simp only [Bool.false_eq_true, if_false] at hk ⊢
          cases child with
          | File fid => rfl
          | Directory cp nm perm ch0 =>
            have hrest' : rest ≠ [] := by
              cases rest with
              | nil => simp at hrest
              | cons a b => exact fun hh => List.noConfusion hh
            simp only [] at hk ⊢
            rw [ih ch0 t f hrest' hk]
            rfl

/-- C5 amended: when the root mapping is empty, every removal fails with the
NotFound error typed by the requested kind (`MemFileNotFound` for
`remove_file`, `MemDirNotFound` for `remove_dir` / `remove_dir_all`), for any
path; when the root mapping is non-empty and the key-directed walk to the
terminal entry fails, every removal fails with the untyped `BadPath` instead. -/
theorem remove_absent_entry_errors (p : List String) (s : MemFileSystem) :
    (s.children = [] →
      s.removeFile p = .error (.MemFileNotFound p) ∧
      s.removeDir p = .error (.MemDirNotFound p) ∧
      s.removeDirAll p = .error (.MemDirNotFound p)) ∧
    (s.children ≠ [] → p ≠ [] → keyResolve (some s.children) p = none →
      s.removeFile p = .error .BadPath ∧
      s.removeDir p = .error .BadPath ∧
      s.removeDirAll p = .error .BadPath) := by
  constructor
  · intro he
    refine ⟨?_, ?_, ?_⟩ <;>
      simp [MemFileSystem.removeFile, MemFileSystem.removeDir, MemFileSystem.removeDirAll,
        rootRemove, he, Except.map]
  · intro hne hp hk
    have key : ∀ t f, rootRemove s.children p t f = .error .BadPath := by
      intro t f
      have hie : s.children.isEmpty = false := by
        cases hcs : s.children with
        | nil => exact absurd hcs hne
        | cons a b => rfl
      unfold rootRemove
      rw [hie]
      cases p with
      | nil => exact absurd rfl hp
      | cons current rest =>
        rw [keyResolve] at hk
        simp only [Bool.false_eq_true, if_false]
        cases hl : lookupKey s.children current with
        | none => rfl
        | some child =>
          rw [hl] at hk
          cases hrest : rest.isEmpty with
          | true => rw [hrest] at hk; simp at hk
          | false =>
            rw [hrest] at hk
            simp only [Bool.false_eq_true, if_false] at hk ⊢
            cases child with
            | File fid => rfl
            | Directory cp nm perm ch0 =>
              have hrest' : rest ≠ [] := by
                cases rest with
                | nil => simp at hrest
                | cons a b => exact fun hh => List.noConfusion hh
              simp only [] at hk ⊢
              rw [dirRemove_badPath_of_keyResolve_none rest ch0 t f hrest' hk]
              rfl
    refine ⟨?_, ?_, ?_⟩
    · rw [MemFileSystem.removeFile, key .File false]; rfl
    · rw [MemFileSystem.removeDir, key .Directory false]; rfl
    · rw [MemFileSystem.removeDirAll, key .Directory true]; rfl

/-- C5 witness: the amended behaviour evaluated on the empty filesystem and on a
populated one-file tree, both for path "y". -/
theorem remove_absent_entry_errors_witness :
    MemFileSystem.removeFile MemFileSystem.empty ["y"] = .error (.MemFileNotFound ["y"]) ∧
    MemFileSystem.removeFile
      ⟨[(("x"), .File 0)], ⟨[(0, ⟨["x"], ("x"), [], 0o755⟩)], 1⟩⟩ ["y"] =
      .error .BadPath :=
  ⟨((remove_absent_entry_errors ["y"] MemFileSystem.empty).1 rfl).1,
   ((remove_absent_entry_errors ["y"]
      ⟨[(("x"), .File 0)], ⟨[(0, ⟨["x"], ("x"), [], 0o755⟩)], 1⟩⟩).2
      (by simp) (by simp) rfl).1⟩

/-! ### C7 — read_dir result cases -/

/-- C7: `read_dir(P)` on a path that resolves to a file fails (the type-mismatch
condition is realised as the `MemFileNotFound` error, src/mem.rs:63); on a
directory whose children were never populated it succeeds with the empty
sequence; and on a directory with a children mapping it succeeds with exactly
the mapping's entries (the directory's immediate children). -/
theorem readDir_resolved_cases (s : MemFileSystem) (p : List String) (e : MemDirEntry)
    (h : s.getFromRelativePath p = some e) :
    s.readDir p =
      match e with
      | .File _ => .error (.MemFileNotFound p)
      | .Directory _ _ _ none => .ok []
      | .Directory _ _ _ (some cs) => .ok (cs.map Prod.snd) := by
  cases e with
  | File fid => simp [MemFileSystem.readDir, h]
  | Directory cp nm perm ch => cases ch <;> simp [MemFileSystem.readDir, h]

/-- C7 witness: the three-way case split evaluated on a tree with a file at `x`
(resolving `x` yields the file error case). -/
theorem readDir_resolved_cases_witness :
    MemFileSystem.readDir ⟨[(("x"), .File 0)], ⟨[(0, ⟨["x"], ("x"), [], 0o755⟩)], 1⟩⟩
      ["x"] = .error (.MemFileNotFound ["x"]) :=
  readDir_resolved_cases ⟨[(("x"), .File 0)], ⟨[(0, ⟨["x"], ("x"), [], 0o755⟩)], 1⟩⟩
    ["x"] (.File 0) rfl

/-! ### C9 — idempotence of create_dir_all -/

/-- Helper for C9: a successful `MemDirectory::insert_dir` with `force` leaves a
tree on which re-running the same insertion (with any complete path) succeeds,
returns the same directory, and changes nothing. -/
theorem dirInsertDir_idem (p : List String) :
    ∀ (ch ch₂ : Option (List (String × MemDirEntry))) (cp cp' : List String)
      (d : MemDirEntry),
    dirInsertDir ch p cp true = .ok (ch₂, d) →
    dirInsertDir ch₂ p cp' true = .ok (ch₂, d) := by
  induction p with
  | nil => intro ch ch₂ cp cp' d h; simp [dirInsertDir] at h
  | cons current rest ih =>
    intro ch ch₂ cp cp' d h
    simp only [dirInsertDir] at h
    cases hl : lookupKey (ch.getD []) current with
    | some child =>
      rw [hl] at h
      cases child with
      | File fid => simp at h
      | Directory cp0 nm0 perm0 ch0 =>
        simp only [] at h
        cases hrest : rest.isEmpty with
        | true =>
          rw [hrest] at h
          simp only [if_true] at h
          obtain ⟨h1, h2⟩ : some (ch.getD []) = ch₂ ∧ MemDirEntry.Directory cp0 nm0 perm0 ch0 = d := by
            simpa using h
          subst h1; subst h2
          simp only [dirInsertDir, Option.getD_some]
          rw [hl]
          simp [hrest]
        | false =>
          rw [hrest] at h
          simp only [Bool.false_eq_true, if_false] at h
          cases hin : dirInsertDir ch0 rest cp true with
          | error e => rw [hin] at h; simp [Except.map] at h
          | ok r =>
            obtain ⟨ch1, d1⟩ := r
            rw [hin] at h
            simp only [Except.map, Except.ok.injEq, Prod.mk.injEq] at h
            obtain ⟨h1, h2⟩ := h
            subst h1; subst h2
            have hins := insertKey_self_of_lookup
              (insertKey (ch.getD []) current (.Directory cp0 nm0 perm0 ch1)) current
              (.Directory cp0 nm0 perm0 ch1) (lookupKey_insertKey_self _ _ _)
            simp only [dirInsertDir, Option.getD_some]
            rw [lookupKey_insertKey_self]
            simp only [hrest, Bool.false_eq_true, if_false]
            rw [ih _ _ _ cp' _ hin]
            simp [Except.map, hins]
    | none =>
      rw [hl] at h
      cases hrest : rest.isEmpty with
      | true =>
        rw [hrest] at h
        simp only [if_true] at h
        obtain ⟨h1, h2⟩ :
            some (insertKey (ch.getD []) current (.Directory cp current 0o755 none)) = ch₂ ∧
            MemDirEntry.Directory cp current 0o755 none = d := by
          simpa using h
        subst h1; subst h2
        simp only [dirInsertDir, Option.getD_some]
        rw [lookupKey_insertKey_self]
        simp [hrest]
      | false =>
        rw [hrest] at h
        simp only [Bool.false_eq_true, if_false, if_true] at h
        cases hin : dirInsertDir none rest cp true with
        | error e => rw [hin] at h; simp [Except.map] at h
        | ok r =>
          obtain ⟨ch1, d1⟩ := r
          rw [hin] at h
          simp only [Except.map, Except.ok.injEq, Prod.mk.injEq] at h
          obtain ⟨h1, h2⟩ := h
          subst h1; subst h2
          have hins := insertKey_self_of_lookup
            (insertKey (ch.getD []) current (.Directory cp current 0o755 ch1)) current
            (.Directory cp current 0o755 ch1) (lookupKey_insertKey_self _ _ _)
          simp only [dirInsertDir, Option.getD_some]
          rw [lookupKey_insertKey_self]
          simp only [hrest, Bool.false_eq_true, if_false]
          rw [ih _ _ _ cp' _ hin]
          simp [Except.map, hins]

/-- Helper for C9: the root-level `MemFileSystem::insert_dir` with `force` is
likewise idempotent on success. -/
theorem rootInsertDir_idem (p : List String) (cs cs₂ : List (String × MemDirEntry))
    (d : MemDirEntry) (h : rootInsertDir cs p true = .ok (cs₂, d)) :
    rootInsertDir cs₂ p true = .ok (cs₂, d) := by
  cases p with
  | nil => simp [rootInsertDir] at h
  | cons current rest =>
    simp only [rootInsertDir] at h
    cases hl : lookupKey cs current with
    | some child =>
      rw [hl] at h
      cases child with
      | File fid => simp at h
      | Directory cp0 nm0 perm0 ch0 =>
        simp only [] at h
        cases hrest : rest.isEmpty with
        | true =>
          rw [hrest] at h
          simp only [if_true] at h
          obtain ⟨h1, h2⟩ : cs = cs₂ ∧ MemDirEntry.Directory cp0 nm0 perm0 ch0 = d := by
            simpa using h
          subst h1; subst h2
          simp only [rootInsertDir]
          rw [hl]
          simp [hrest]
        | false =>
          rw [hrest] at h
          simp only [Bool.false_eq_true, if_false] at h
          cases hin : dirInsertDir ch0 rest (current :: rest) true with
          | error e => rw [hin] at h; simp [Except.map] at h
          | ok r =>
            obtain ⟨ch1, d1⟩ := r
            rw [hin] at h
            simp only [Except.map, Except.ok.injEq, Prod.mk.injEq] at h
            obtain ⟨h1, h2⟩ := h
            subst h1; subst h2
            have hins := insertKey_self_of_lookup
              (insertKey cs current (.Directory cp0 nm0 perm0 ch1)) current
              (.Directory cp0 nm0 perm0 ch1) (lookupKey_insertKey_self _ _ _)
            simp only [rootInsertDir]
            rw [lookupKey_insertKey_self]
            simp only [hrest, Bool.false_eq_true, if_false]
            rw [dirInsertDir_idem rest _ _ _ (current :: rest) _ hin]
            simp [Except.map, hins]
    | none =>
      rw [hl] at h
      cases hrest : rest.isEmpty with
      | true =>
        rw [hrest] at h
        simp only [if_true] at h
        obtain ⟨h1, h2⟩ :
            insertKey cs current (.Directory (current :: rest) current 0o755 none) = cs₂ ∧
            MemDirEntry.Directory (current :: rest) current 0o755 none = d := by
          simpa using h
        subst h1; subst h2
        simp only [rootInsertDir]
        rw [lookupKey_insertKey_self]
        simp [hrest]
      | false =>
        rw [hrest] at h
        simp only [Bool.false_eq_true, if_false, if_true] at h
        cases hin : dirInsertDir none rest (current :: rest) true with
        | error e => rw [hin] at h; simp [Except.map] at h
        | ok r =>
          obtain ⟨ch1, d1⟩ := r
          rw [hin] at h
          simp only [Except.map, Except.ok.injEq, Prod.mk.injEq] at h
          obtain ⟨h1, h2⟩ := h
          subst h1; subst h2
          have hins := insertKey_self_of_lookup
            (insertKey cs current (.Directory (current :: rest) current 0o755 ch1)) current
            (.Directory (current :: rest) current 0o755 ch1) (lookupKey_insertKey_self _ _ _)
          simp only [rootInsertDir]
          rw [lookupKey_insertKey_self]
          simp only [hrest, Bool.false_eq_true, if_false]
          rw [dirInsertDir_idem rest _ _ _ (current :: rest) _ hin]
          simp [Except.map, hins]

/-- C9: `create_dir_all(P)` is idempotent — if it succeeds, a second call with
the same P succeeds as well and leaves the whole filesystem state (in
particular, the children mapping of the directory at P) unchanged. -/
theorem createDirAll_idem (p : List String) (s s' : MemFileSystem)
    (h : s.createDirAll p = .ok s') : s'.createDirAll p = .ok s' := by
  unfold MemFileSystem.createDirAll at h ⊢
  cases hr : rootInsertDir s.children p true with
  | error e => rw [hr] at h; simp [Except.map] at h
  | ok r =>
    obtain ⟨cs₂, d⟩ := r
    rw [hr] at h
    simp only [Except.map, Except.ok.injEq] at h
    have hchild : s'.children = cs₂ := by rw [← h]
    have hstore : s'.store = s.store := by rw [← h]
    rw [hchild, hstore, rootInsertDir_idem p s.children cs₂ d hr]
    simp [Except.map, ← h]

/-- C9 witness: `create_dir_all("a/b")` on the empty filesystem, then again on
the resulting state. -/
theorem createDirAll_idem_witness :
    MemFileSystem.createDirAll
      ⟨[(("a"), .Directory ["a", "b"] ("a") 0o755
          (some [(("b"), .Directory ["a", "b"] ("b") 0o755 none)]))], ⟨[], 0⟩⟩
      ["a", "b"] =
    .ok ⟨[(("a"), .Directory ["a", "b"] ("a") 0o755
          (some [(("b"), .Directory ["a", "b"] ("b") 0o755 none)]))], ⟨[], 0⟩⟩ :=
  createDirAll_idem ["a", "b"] MemFileSystem.empty
    ⟨[(("a"), .Directory ["a", "b"] ("a") 0o755
        (some [(("b"), .Directory ["a", "b"] ("b") 0o755 none)]))], ⟨[], 0⟩⟩ rfl

/-! ### C10 — path resolution shadows children named like their directory -/

/-- Helper for C10: if the entry-level walk resolves `p` to a directory named
`nm`, then appending the segment `nm` resolves to the same directory — the
name-check in `MemDirEntry::get_from_relative_path` (src/mem.rs:421) matches the
extra segment against the directory's own name and returns the directory itself
instead of descending into its children. -/
theorem entryGet_append_own_name (heap : List (Nat × MemFileInternal)) (p : List String) :
    ∀ (e : MemDirEntry) (cp : List String) (nm : String) (perm : Nat)
      (ch : Option (List (String × MemDirEntry))),
    entryGetFromRelativePath heap e p = some (.Directory cp nm perm ch) →
    entryGetFromRelativePath heap e (p ++ [nm]) = some (.Directory cp nm perm ch) := by
  induction p with
  | nil =>
    intro e cp nm perm ch h
    simp only [entryGetFromRelativePath] at h
    obtain rfl : e = .Directory cp nm perm ch := by simpa using h
    simp [entryGetFromRelativePath]
  | cons current rest ih =>
    intro e cp nm perm ch h
    cases e with
    | File fid =>
      simp only [entryGetFromRelativePath] at h
      cases hg : heapGet heap fid with
      | none => rw [hg] at h; simp at h
      | some fi =>
        rw [hg] at h
        by_cases hn : fi.name = current
        · simp [hn] at h
        · simp [hn] at h
    | Directory cp0 nm0 perm0 ch0 =>
      simp only [entryGetFromRelativePath] at h
      by_cases hn : nm0 = current
      · rw [if_pos hn] at h
        obtain ⟨e1, e2, e3, e4⟩ : cp0 = cp ∧ nm0 = nm ∧ perm0 = perm ∧ ch0 = ch := by
          simpa using h
        subst e1; subst e2; subst e3; subst e4
        rw [List.cons_append]
        simp only [entryGetFromRelativePath]
        rw [if_pos hn]
      · simp only [hn, if_false] at h
        cases ch0 with
        | none => simp at h
        | some cs =>
          simp only [] at h
          cases hl : lookupKey cs current with
          | none => rw [hl] at h; simp at h
          | some child =>
            rw [hl] at h
            simp only [] at h
            rw [List.cons_append]
            simp only [entryGetFromRelativePath, hn, if_false, hl]
            exact ih child cp nm perm ch h

/-- Helper for C10: the same property lifted to the root resolver. -/
theorem getFromRelativePath_append_own_name (s : MemFileSystem) (p cp : List String)
    (nm : String) (perm : Nat) (ch : Option (List (String × MemDirEntry)))
    (h : s.getFromRelativePath p = some (.Directory cp nm perm ch)) :
    s.getFromRelativePath (p ++ [nm]) = some (.Directory cp nm perm ch) := by
  unfold MemFileSystem.getFromRelativePath at h ⊢
  by_cases he : s.children.isEmpty = true
  · rw [if_pos he] at h
    exact absurd h (by simp)
  · rw [if_neg he] at h ⊢
    cases p with
    | nil => simp at h
    | cons current rest =>
      simp only [] at h
      rw [List.cons_append]
      simp only []
      cases hl : lookupKey s.children current with
      | none => rw [hl] at h; simp at h
      | some child =>
        rw [hl] at h
        simp only [] at h ⊢
        exact entryGet_append_own_name s.store.heap rest child cp nm perm ch h

/-- C10: for a directory D that the resolver reaches at path P and whose own
name is n, resolving P/n yields D itself rather than descending into D's
children — and therefore `open_file(P/n)` fails with `MemFileNotFound(P/n)`
even when D's children mapping holds a file under the key n. -/
theorem resolve_returns_directory_for_own_name_segment (s : MemFileSystem)
    (p cp : List String) (nm : String) (perm : Nat)
    (cs : List (String × MemDirEntry)) (fid : Nat)
    (h : s.getFromRelativePath p = some (.Directory cp nm perm (some cs)))
    (_hfile : lookupKey cs nm = some (.File fid)) :
    s.getFromRelativePath (p ++ [nm]) = some (.Directory cp nm perm (some cs)) ∧
    s.openFile (p ++ [nm]) = .error (.MemFileNotFound (p ++ [nm])) := by
  have h2 := getFromRelativePath_append_own_name s p cp nm perm (some cs) h
  exact ⟨h2, by simp [MemFileSystem.openFile, h2]⟩

/-- C10 witness: a directory `a` containing a file also named `a`
(built by `create_dir_all("a")` then `create_file("a/a")`): resolving "a/a"
returns the directory and `open_file("a/a")` fails although the file exists. -/
theorem resolve_returns_directory_for_own_name_segment_witness :
    MemFileSystem.getFromRelativePath
      ⟨[(("a"), .Directory ["a"] ("a") 0o755 (some [(("a"), .File 0)]))],
        ⟨[(0, ⟨["a", "a"], ("a"), [], 0o755⟩)], 1⟩⟩
      (["a"] ++ ["a"]) = some (.Directory ["a"] ("a") 0o755 (some [(("a"), .File 0)])) ∧
    MemFileSystem.openFile
      ⟨[(("a"), .Directory ["a"] ("a") 0o755 (some [(("a"), .File 0)]))],
        ⟨[(0, ⟨["a", "a"], ("a"), [], 0o755⟩)], 1⟩⟩
      (["a"] ++ ["a"]) = .error (.MemFileNotFound (["a"] ++ ["a"])) :=
  resolve_returns_directory_for_own_name_segment
    ⟨[(("a"), .Directory ["a"] ("a") 0o755 (some [(("a"), .File 0)]))],
      ⟨[(0, ⟨["a", "a"], ("a"), [], 0o755⟩)], 1⟩⟩
    ["a"] ["a"] ("a") 0o755 [(("a"), .File 0)] 0 rfl rfl

/-! ### C8 / C2 — what rename actually does to the tree -/

/-- Helper: extending a key-directed walk that lands on a directory simply
continues the walk from that directory's children. -/
theorem keyResolve_append (xs : List String) :
    ∀ (ch : Option (List (String × MemDirEntry))) (ys cp : List String) (nm : String)
      (perm : Nat) (dch : Option (List (String × MemDirEntry))),
    ys ≠ [] →
    keyResolve ch xs = some (.Directory cp nm perm dch) →
    keyResolve ch (xs ++ ys) = keyResolve dch ys := by
  induction xs with
  | nil => intro ch ys cp nm perm dch hys h; simp [keyResolve] at h
  | cons current rest ih =>
    intro ch ys cp nm perm dch hys h
    cases ch with
    | none => simp [keyResolve] at h
    | some cs =>
      rw [keyResolve] at h
      rw [List.cons_append, keyResolve]
      cases hl : lookupKey cs current with
      | none => rw [hl] at h; simp at h
      | some child =>
        rw [hl] at h
        simp only [] at h ⊢
        cases hrest : rest.isEmpty with
        | true =>
          have hr : rest = [] := by
            cases rest with
            | nil => rfl
            | cons u v => simp at hrest
          subst hr
          rw [hrest] at h
          simp only [if_true] at h
          obtain rfl : child = .Directory cp nm perm dch := by simpa using h
          have hys' : ys.isEmpty = false := by
            cases ys with
            | nil => exact absurd rfl hys
            | cons u v => rfl
          simp only [List.nil_append, hys', Bool.false_eq_true, if_false]
        | false =>
          rw [hrest] at h
          simp only [Bool.false_eq_true, if_false] at h
          have hne : (rest ++ ys).isEmpty = false := by
            cases rest with
            | nil => simp at hrest
            | cons u v => rfl
          rw [hne]
          simp only [Bool.false_eq_true, if_false]
          cases child with
          | File fid => simp at h
          | Directory cp0 nm0 perm0 ch0 =>
            simp only [] at h ⊢
            exact ih ch0 ys cp nm perm dch hys h

/-- Helper for C8/C2: `MemDirectory::rename` walks the parent chain of the OLD
path, consuming one new-path segment per level, and at the terminal level
re-inserts the entry into that same parent under the new path's segment at that
depth, with `complete_path` set to the full new path and the children mapping
untouched; the store is untouched for a directory rename. -/
theorem dirRename_moves_subtree (p : List String) :
    ∀ (q : List String) (a b : String) (r : List String) (st : FileStore)
      (ch ch₂ : Option (List (String × MemDirEntry))) (st₂ : FileStore)
      (complete cp : List String) (nm : String) (perm : Nat)
      (dch : Option (List (String × MemDirEntry))),
    q.length = p.length →
    keyResolve ch (p ++ [a]) = some (.Directory cp nm perm dch) →
    dirRename st ch (p ++ [a]) (q ++ b :: r) complete = .ok (ch₂, st₂) →
    st₂ = st ∧ keyResolve ch₂ (p ++ [b]) = some (.Directory complete nm perm dch) := by
  induction p with
  | nil =>
    intro q a b r st ch ch₂ st₂ complete cp nm perm dch hlen hres hren
    have hq : q = [] := List.length_eq_zero.mp hlen
    subst hq
    simp only [List.nil_append] at hres hren ⊢
    cases ch with
    | none => simp [keyResolve] at hres
    | some cs =>
      rw [keyResolve] at hres
      rw [dirRename] at hren
      cases hl : lookupKey cs a with
      | none => rw [hl] at hres; simp at hres
      | some child =>
        rw [hl] at hres hren
        simp only [List.isEmpty_nil, if_true] at hres
        obtain rfl : child = .Directory cp nm perm dch := by simpa using hres
        simp only [List.isEmpty_nil, if_true] at hren
        obtain ⟨h1, h2⟩ :
            some (insertKey (removeKey cs a) b (.Directory complete nm perm dch)) = ch₂ ∧
            st = st₂ := by simpa using hren
        subst h1
        refine ⟨h2.symm, ?_⟩
        rw [keyResolve, lookupKey_insertKey_self]
        simp
  | cons x p' ih =>
    intro q a b r st ch ch₂ st₂ complete cp nm perm dch hlen hres hren
    cases q with
    | nil => simp at hlen
    | cons y q' =>
    have hlen' : q'.length = p'.length := by simpa using hlen
    simp only [List.cons_append] at hres hren ⊢
    cases ch with
    | none => simp [keyResolve] at hres
    | some cs =>
      rw [keyResolve] at hres
      rw [dirRename] at hren
      have hne : (p' ++ [a]).isEmpty = false := by
        cases p' with
        | nil => rfl
        | cons u v => rfl
      cases hl : lookupKey cs x with
      | none => rw [hl] at hres; simp at hres
      | some child =>
        rw [hl] at hres hren
        rw [hne] at hres
        simp only [Bool.false_eq_true, if_false] at hres
        rw [hne] at hren
        simp only [Bool.false_eq_true, if_false] at hren
        cases child with
        | File fid => simp at hres
        | Directory cp0 nm0 perm0 ch0 =>
          simp only [] at hres hren
          cases hin : dirRename st ch0 (p' ++ [a]) (q' ++ b :: r) complete with
          | error e => rw [hin] at hren; simp [Except.map] at hren
          | ok rr =>
            obtain ⟨ch1, st1⟩ := rr
            rw [hin] at hren
            simp only [Except.map, Except.ok.injEq, Prod.mk.injEq] at hren
            obtain ⟨h1, h2⟩ := hren
            subst h1
            obtain ⟨hst, hkey⟩ := ih q' a b r st ch0 ch1 st1 complete cp nm perm dch hlen' hres hin
            refine ⟨h2 ▸ hst, ?_⟩
            rw [keyResolve, lookupKey_insertKey_self]
            have hne2 : (p' ++ [b]).isEmpty = false := by
              cases p' with
              | nil => rfl
              | cons u v => rfl
            rw [hne2]
            simp only [Bool.false_eq_true, if_false]
            exact hkey

/-- Helper for C8/C2: the root-level rename behaves the same way, with the full
new path as the entry's new `complete_path`. -/
theorem rootRename_moves_subtree (p q : List String) (a b : String) (r : List String)
    (st : FileStore) (cs cs₂ : List (String × MemDirEntry)) (st₂ : FileStore)
    (cp : List String) (nm : String) (perm : Nat)
    (dch : Option (List (String × MemDirEntry)))
    (hlen : q.length = p.length)
    (hres : keyResolve (some cs) (p ++ [a]) = some (.Directory cp nm perm dch))
    (hren : rootRename st cs (p ++ [a]) (q ++ b :: r) = .ok (cs₂, st₂)) :
    st₂ = st ∧
    keyResolve (some cs₂) (p ++ [b]) = some (.Directory (q ++ b :: r) nm perm dch) := by
  have hie : cs.isEmpty = false := by
    cases hcs : cs with
    | nil =>
      subst hcs
      cases p with
      | nil => simp [keyResolve, lookupKey] at hres
      | cons u v =>
        rw [List.cons_append] at hres
        simp [keyResolve, lookupKey] at hres
    | cons u v => rfl
  unfold rootRename at hren
  rw [hie] at hren
  simp only [Bool.false_eq_true, if_false] at hren
  cases p with
  | nil =>
    have hq : q = [] := List.length_eq_zero.mp hlen
    subst hq
    simp only [List.nil_append] at hres hren ⊢
    rw [keyResolve] at hres
    cases hl : lookupKey cs a with
    | none => rw [hl] at hres; simp at hres
    | some child =>
      rw [hl] at hres hren
      simp only [List.isEmpty_nil, if_true] at hres
      obtain rfl : child = .Directory cp nm perm dch := by simpa using hres
      simp only [List.isEmpty_nil, if_true] at hren
      obtain ⟨h1, h2⟩ :
          insertKey (removeKey cs a) b (.Directory (b :: r) nm perm dch) = cs₂ ∧
          st = st₂ := by simpa using hren
      subst h1
      refine ⟨h2.symm, ?_⟩
      rw [keyResolve, lookupKey_insertKey_self]
      simp
  | cons x p' =>
    cases q with
    | nil => simp at hlen
    | cons y q' =>
    have hlen' : q'.length = p'.length := by simpa using hlen
    simp only [List.cons_append] at hres hren ⊢
    rw [keyResolve] at hres
    have hne : (p' ++ [a]).isEmpty = false := by
      cases p' with
      | nil => rfl
      | cons u v => rfl
    cases hl : lookupKey cs x with
    | none => rw [hl] at hres; simp at hres
    | some child =>
      rw [hl] at hres hren
      rw [hne] at hres
      simp only [Bool.false_eq_true, if_false] at hres
      rw [hne] at hren
      simp only [Bool.false_eq_true, if_false] at hren
      cases child with
      | File fid => simp at hres
      | Directory cp0 nm0 perm0 ch0 =>
        simp only [] at hres hren
        cases hin : dirRename st ch0 (p' ++ [a]) (q' ++ b :: r) (y :: (q' ++ b :: r)) with
        | error e => rw [hin] at hren; simp [Except.map] at hren
        | ok rr =>
          obtain ⟨ch1, st1⟩ := rr
          rw [hin] at hren
          simp only [Except.map, Except.ok.injEq, Prod.mk.injEq] at hren
          obtain ⟨h1, h2⟩ := hren
          subst h1
          obtain ⟨hst, hkey⟩ := dirRename_moves_subtree p' q' a b r st ch0 ch1 st1
            (y :: (q' ++ b :: r)) cp nm perm dch hlen' hres hin
          refine ⟨h2 ▸ hst, ?_⟩
          rw [keyResolve, lookupKey_insertKey_self]
          have hne2 : (p' ++ [b]).isEmpty = false := by
            cases p' with
            | nil => rfl
            | cons u v => rfl
          rw [hne2]
          simp only [Bool.false_eq_true, if_false]
          exact hkey

/-- C8 counterexample: the claim states that if `rename(from, to)` succeeds then
`read_dir(to)` afterwards returns the same child set as `read_dir(from)` before.
But rename never consults `to`'s parent segments: it re-inserts the entry inside
the SOURCE parent under `to`'s segment at the old depth.  Concretely, with a file
at `a/x/f`, `rename("a/x", "b/y")` succeeds (the subtree ends up at `a/y` with
`complete_path` `b/y`), and `read_dir("b/y")` afterwards fails with
`MemFileNotFound` instead of returning the one-element child set that
`read_dir("a/x")` returned before. -/
theorem rename_readDir_counterexample :
    MemFileSystem.createDirAll MemFileSystem.empty ["a", "x"] =
      .ok ⟨[(("a"), .Directory ["a", "x"] ("a") 0o755
              (some [(("x"), .Directory ["a", "x"] ("x") 0o755 none)]))], ⟨[], 0⟩⟩ ∧
    MemFileSystem.createFile
        ⟨[(("a"), .Directory ["a", "x"] ("a") 0o755
            (some [(("x"), .Directory ["a", "x"] ("x") 0o755 none)]))], ⟨[], 0⟩⟩
        ["a", "x", "f"] =
      .ok (0, ⟨[(("a"), .Directory ["a", "x"] ("a") 0o755
              (some [(("x"), .Directory ["a", "x"] ("x") 0o755
                (some [(("f"), .File 0)]))]))],
            ⟨[(0, ⟨["a", "x", "f"], ("f"), [], 0o755⟩)], 1⟩⟩) ∧
    MemFileSystem.readDir
        ⟨[(("a"), .Directory ["a", "x"] ("a") 0o755
            (some [(("x"), .Directory ["a", "x"] ("x") 0o755
              (some [(("f"), .File 0)]))]))],
          ⟨[(0, ⟨["a", "x", "f"], ("f"), [], 0o755⟩)], 1⟩⟩
        ["a", "x"] = .ok [.File 0] ∧
    MemFileSystem.rename
        ⟨[(("a"), .Directory ["a", "x"] ("a") 0o755
            (some [(("x"), .Directory ["a", "x"] ("x") 0o755
              (some [(("f"), .File 0)]))]))],
          ⟨[(0, ⟨["a", "x", "f"], ("f"), [], 0o755⟩)], 1⟩⟩
        ["a", "x"] ["b", "y"] =
      .ok ⟨[(("a"), .Directory ["a", "x"] ("a") 0o755
              (some [(("y"), .Directory ["b", "y"] ("x") 0o755
                (some [(("f"), .File 0)]))]))],
            ⟨[(0, ⟨["a", "x", "f"], ("f"), [], 0o755⟩)], 1⟩⟩ ∧
    MemFileSystem.readDir
        ⟨[(("a"), .Directory ["a", "x"] ("a") 0o755
            (some [(("y"), .Directory ["b", "y"] ("x") 0o755
              (some [(("f"), .File 0)]))]))],
          ⟨[(0, ⟨["a", "x", "f"], ("f"), [], 0o755⟩)], 1⟩⟩
        ["b", "y"] = .error (.MemFileNotFound ["b", "y"]) ∧
    (Except.error (ChiconError.MemFileNotFound ["b", "y"]) :
        Except ChiconError (List MemDirEntry)) ≠ .ok [.File 0] :=
  ⟨rfl, rfl, rfl, rfl, rfl, by simp⟩

/-- C8 amended: a successful `rename(from, to)` preserves the renamed
directory's children mapping verbatim (hence the same child set by relative
name and file type) and leaves the file store untouched — but the directory is
re-attached inside its ORIGINAL parent under `to`'s segment at `from`'s depth,
i.e. the preserved child set is found by the key-directed walk along `from`'s
parent chain followed by that segment, not necessarily by `read_dir(to)`:
destination parent segments are ignored by rename, and resolution of the new
path can also be diverted by the own-name quirk of the resolver. -/
theorem rename_preserves_children_in_source_parent (s s' : MemFileSystem)
    (p q : List String) (a b : String) (r cp : List String) (nm : String) (perm : Nat)
    (dcs : List (String × MemDirEntry))
    (hlen : q.length = p.length)
    (hres : keyResolve (some s.children) (p ++ [a]) = some (.Directory cp nm perm (some dcs)))
    (hren : s.rename (p ++ [a]) (q ++ b :: r) = .ok s') :
    s'.store = s.store ∧
    keyResolve (some s'.children) (p ++ [b]) =
      some (.Directory (q ++ b :: r) nm perm (some dcs)) := by
  unfold MemFileSystem.rename at hren
  cases hr : rootRename s.store s.children (p ++ [a]) (q ++ b :: r) with
  | error e => rw [hr] at hren; simp [Except.map] at hren
  | ok rr =>
    obtain ⟨cs₂, st₂⟩ := rr
    rw [hr] at hren
    simp only [Except.map, Except.ok.injEq] at hren
    have h2 := rootRename_moves_subtree p q a b r s.store s.children cs₂ st₂ cp nm perm
      (some dcs) hlen hres hr
    exact ⟨by rw [← hren]; exact h2.1, by rw [← hren]; exact h2.2⟩

/-- C8 witness: the rename of `a/x` (holding the file `f`) to `b/y`; the child
set survives unchanged at `a/y`, together with the untouched store. -/
theorem rename_preserves_children_in_source_parent_witness :
    (⟨[(("a"), .Directory ["a", "x"] ("a") 0o755
        (some [(("y"), .Directory ["b", "y"] ("x") 0o755
          (some [(("f"), .File 0)]))]))],
      ⟨[(0, ⟨["a", "x", "f"], ("f"), [], 0o755⟩)], 1⟩⟩ : MemFileSystem).store =
      (⟨[(("a"), .Directory ["a", "x"] ("a") 0o755
          (some [(("x"), .Directory ["a", "x"] ("x") 0o755
            (some [(("f"), .File 0)]))]))],
        ⟨[(0, ⟨["a", "x", "f"], ("f"), [], 0o755⟩)], 1⟩⟩ : MemFileSystem).store ∧
    keyResolve (some [(("a"), .Directory ["a", "x"] ("a") 0o755
        (some [(("y"), .Directory ["b", "y"] ("x") 0o755
          (some [(("f"), .File 0)]))]))])
      (["a"] ++ ["y"]) =
      some (.Directory (["b"] ++ ["y"]) ("x") 0o755 (some [(("f"), .File 0)])) :=
  rename_preserves_children_in_source_parent
    ⟨[(("a"), .Directory ["a", "x"] ("a") 0o755
        (some [(("x"), .Directory ["a", "x"] ("x") 0o755
          (some [(("f"), .File 0)]))]))],
      ⟨[(0, ⟨["a", "x", "f"], ("f"), [], 0o755⟩)], 1⟩⟩
    ⟨[(("a"), .Directory ["a", "x"] ("a") 0o755
        (some [(("y"), .Directory ["b", "y"] ("x") 0o755
          (some [(("f"), .File 0)]))]))],
      ⟨[(0, ⟨["a", "x", "f"], ("f"), [], 0o755⟩)], 1⟩⟩
    ["a"] ["b"] ("x") ("y") [] ["a", "x"] ("x") 0o755 [(("f"), .File 0)]
    rfl rfl rfl

/-! ### C2 — complete_path bookkeeping -/

/-- C2 counterexample: the claim states every reachable entry's `complete_path`
equals the concatenated segment names of the path that reaches it, in particular
that an intermediate directory created by `create_dir_all` carries its own
prefix.  But `insert_dir` threads the FULL target path into every intermediate
level: after `create_dir_all("a/b")` on an empty filesystem, the directory
reached by the single segment `a` has `complete_path` `a/b`, not `a`. -/
theorem createDirAll_intermediate_completePath_counterexample :
    MemFileSystem.createDirAll MemFileSystem.empty ["a", "b"] =
      .ok ⟨[(("a"), .Directory ["a", "b"] ("a") 0o755
          (some [(("b"), .Directory ["a", "b"] ("b") 0o755 none)]))], ⟨[], 0⟩⟩ ∧
    (["a", "b"] : List String) ≠ ["a"] :=
  ⟨rfl, by decide⟩

/-- C2 amended: `complete_path` is NOT the concatenation of the reaching
segments in general.  An intermediate directory created by `create_dir_all(P)`
receives the full target path P as its `complete_path` (concrete conjunct), and
a successful rename of a directory rewrites only the renamed entry's own
`complete_path` to the full new path while every descendant — here a directory
child at key k — keeps its previous `complete_path` unchanged. -/
theorem completePath_full_target_and_stale_descendants
    (p q : List String) (a b : String) (r : List String) (s s' : MemFileSystem)
    (cp : List String) (nm : String) (perm : Nat) (dcs : List (String × MemDirEntry))
    (k : String) (ccp : List String) (cnm : String) (cperm : Nat)
    (cch : Option (List (String × MemDirEntry)))
    (hlen : q.length = p.length)
    (hres : keyResolve (some s.children) (p ++ [a]) = some (.Directory cp nm perm (some dcs)))
    (hchild : lookupKey dcs k = some (.Directory ccp cnm cperm cch))
    (hren : s.rename (p ++ [a]) (q ++ b :: r) = .ok s') :
    MemFileSystem.createDirAll MemFileSystem.empty ["a", "b"] =
      .ok ⟨[(("a"), .Directory ["a", "b"] ("a") 0o755
          (some [(("b"), .Directory ["a", "b"] ("b") 0o755 none)]))], ⟨[], 0⟩⟩ ∧
    keyResolve (some s'.children) (p ++ [b]) =
      some (.Directory (q ++ b :: r) nm perm (some dcs)) ∧
    keyResolve (some s'.children) ((p ++ [b]) ++ [k]) =
      some (.Directory ccp cnm cperm cch) := by
  unfold MemFileSystem.rename at hren
  cases hr : rootRename s.store s.children (p ++ [a]) (q ++ b :: r) with
  | error e => rw [hr] at hren; simp [Except.map] at hren
  | ok rr =>
    obtain ⟨cs₂, st₂⟩ := rr
    rw [hr] at hren
    simp only [Except.map, Except.ok.injEq] at hren
    have h2 := rootRename_moves_subtree p q a b r s.store s.children cs₂ st₂ cp nm perm
      (some dcs) hlen hres hr
    have hkey : keyResolve (some s'.children) (p ++ [b]) =
        some (.Directory (q ++ b :: r) nm perm (some dcs)) := by
      rw [← hren]; exact h2.2
    refine ⟨rfl, hkey, ?_⟩
    have happ := keyResolve_append (p ++ [b]) (some s'.children) [k] (q ++ b :: r) nm perm
      (some dcs) (by simp) hkey
    rw [happ, keyResolve, hchild]
    simp

/-- C2 witness: renaming the directory `d` (which holds the child directory `e`)
to `m`: the renamed entry's `complete_path` becomes `m` but the child `e` still
carries `complete_path` `d/e`. -/
theorem completePath_full_target_and_stale_descendants_witness :
    MemFileSystem.createDirAll MemFileSystem.empty ["a", "b"] =
      .ok ⟨[(("a"), .Directory ["a", "b"] ("a") 0o755
          (some [(("b"), .Directory ["a", "b"] ("b") 0o755 none)]))], ⟨[], 0⟩⟩ ∧
    keyResolve (some [(("m"), .Directory ["m"] ("d") 0o755
        (some [(("e"), .Directory ["d", "e"] ("e") 0o755 none)]))])
      (["m"]) =
      some (.Directory (["m"]) ("d") 0o755
        (some [(("e"), .Directory ["d", "e"] ("e") 0o755 none)])) ∧
    keyResolve (some [(("m"), .Directory ["m"] ("d") 0o755
        (some [(("e"), .Directory ["d", "e"] ("e") 0o755 none)]))])
      (["m", "e"]) =
      some (.Directory ["d", "e"] ("e") 0o755 none) :=
  completePath_full_target_and_stale_descendants [] [] ("d") ("m") []
    ⟨[(("d"), .Directory ["d", "e"] ("d") 0o755
        (some [(("e"), .Directory ["d", "e"] ("e") 0o755 none)]))], ⟨[], 0⟩⟩
    ⟨[(("m"), .Directory ["m"] ("d") 0o755
        (some [(("e"), .Directory ["d", "e"] ("e") 0o755 none)]))], ⟨[], 0⟩⟩
    ["d", "e"] ("d") 0o755 [(("e"), .Directory ["d", "e"] ("e") 0o755 none)]
    ("e") ["d", "e"] ("e") 0o755 none
    rfl rfl rfl rfl

end Chicon
